import Mathlib

/-!
Verification development for the EPFImporter repository.

The Python sources (EPFParser.py, EPFIngester.py) are shallowly embedded
below.  Python byte/character strings are modelled as lists of characters
(`PyStr`), the decompressed feed file as the list of its physical lines
(each line as returned by `readline`, i.e. ending in a newline), and the
database catalog as a function from table names to table contents.  The
record and field delimiters are fixed at the source defaults
(`"\x02\n"` and `"\x01"`).
-/

namespace EPF

/-- Python strings (and byte strings) are modelled as lists of characters. -/
abbrev PyStr := List Char

/-- Convenience conversion from Lean string literals. -/
def str (s : String) : PyStr := s.data

/-- Default record delimiter of Parser: the two characters 0x02, newline. -/
def recordDelimL : PyStr := ['\x02', '\n']

/-- Default field delimiter of Parser: the single character 0x01. -/
def fieldDelimC : Char := '\x01'

/-- Parser.commentChar. -/
def commentC : Char := '#'

/-- First character of a Python string; the default is irrelevant because
every use in the source is guarded by a non-emptiness check. -/
def front (l : PyStr) : Char := l.headD ' '

/-- Models Python `s.find(pat) != -1`: the pattern occurs somewhere in s. -/
def containsSub (pat : PyStr) : PyStr → Bool
  | [] => pat.isEmpty
  | c :: rest => pat.isPrefixOf (c :: rest) || containsSub pat rest

/-- Models Python `s.endswith(pat)`. -/
def endsWithL (l pat : PyStr) : Bool := pat.isSuffixOf l

/-- Models Python `b''.join(lst)`. -/
def concatAll : List PyStr → PyStr
  | [] => []
  | l :: ls => l ++ concatAll ls

/-! ## Ingester job state and ingest control flow (EPFIngester.py) -/

/-- Result of running the batched write pipeline against the backend:
either it completes, or some statement raises a fatal database error
(MySQLdb.Error / psycopg2.Error). -/
inductive DbOutcome where
  | success
  | fatalError
deriving DecidableEq

/-- What an ingest entry point does, as seen by its caller. -/
inductive IngestResult where
  | ok
  | dbError
  | assertionError
deriving DecidableEq

/-- Which incremental sub-strategy was executed. -/
inductive IncStrategy where
  | skipped
  | inPlace
  | unionMerge
deriving DecidableEq

/-- The mutable bookkeeping of an Ingester object: the checkpoint index,
which timestamps have been recorded, the aborted flag, and the two fields
of the status snapshot dictionary that mirror the abort information. -/
structure JobState where
  lastRecordIngested : Int
  startTimeSet : Bool
  endTimeSet : Bool
  abortTimeSet : Bool
  didAbort : Bool
  statusDidAbort : Bool
  statusAbortTimeSet : Bool
deriving DecidableEq

/-- Ingester.updateStatusDict: copy the live fields into the status
snapshot. -/
def updateStatusDict (st : JobState) : JobState :=
  { st with statusDidAbort := st.didAbort, statusAbortTimeSet := st.abortTimeSet }

/-- Job state right after Ingester.__init__ (which runs updateStatusDict
once on the fresh state). -/
def initialJobState : JobState := ⟨-1, false, false, false, false, false, false⟩

/-- Ingester.ingestFull: record the start time, run create/populate/swap;
on a fatal database error set the abort time and flag, refresh the status
snapshot and re-raise; on success record the end time and refresh the
status snapshot. -/
def ingestFull (outcome : DbOutcome) (st : JobState) : IngestResult × JobState :=
  let st1 := { st with startTimeSet := true }
  match outcome with
  | DbOutcome.fatalError =>
      let st2 := { st1 with abortTimeSet := true, didAbort := true }
      (IngestResult.dbError, updateStatusDict st2)
  | DbOutcome.success =>
      let st2 := { st1 with endTimeSet := true }
      (IngestResult.ok, updateStatusDict st2)

/-- Ingester.ingestFullResume: pre-set the checkpoint to fromRecord - 1,
record the start time, populate the already-created staging table and
swap; on a fatal database error it only logs and re-raises (the abort
time, aborted flag and status snapshot are left untouched); on success it
records the end time (without refreshing the status snapshot). -/
def ingestFullResume (fromRecord : Int) (outcome : DbOutcome) (st : JobState) :
    IngestResult × JobState :=
  let st1 := { st with lastRecordIngested := fromRecord - 1, startTimeSet := true }
  match outcome with
  | DbOutcome.fatalError => (IngestResult.dbError, st1)
  | DbOutcome.success => (IngestResult.ok, { st1 with endTimeSet := true })

/-- Parser.__init__: the record count is never read from the file; it is
guessed from the compressed file size, purely to pick the ingest
strategy. -/
def recordsExpected (fileSize : Nat) : Nat :=
  if fileSize < 100000000 then 499999 else 500001

/-- Everything observable about one ingestIncremental run: the caller
visible result, the sub-strategy executed, the column count the file's
decoded columns were trimmed to, and the final job state. -/
structure IncOutcome where
  result : IngestResult
  strategy : IncStrategy
  effectiveFileCols : Nat
  state : JobState
deriving DecidableEq

/-- Ingester.ingestIncremental: skip (with a warning) when the live table
does not exist; assert that the table has at most as many columns as the
file (an AssertionError propagates without touching the job state); trim
the file's column list when the file has extra columns; then update the
live table in place when the backend is PostgreSQL or the estimated
record count is under 500,000, and otherwise run the staging-plus-union
merge.  A fatal database error sets the abort fields, refreshes the
status snapshot and re-raises; on success the end time is recorded and
the status snapshot refreshed. -/
def ingestIncremental (tableExists : Bool) (tableColCount fileColCount : Nat)
    (isPostgresql : Bool) (fileSize : Nat) (outcome : DbOutcome) (st : JobState) :
    IncOutcome :=
  if !tableExists then
    ⟨IngestResult.ok, IncStrategy.skipped, fileColCount, updateStatusDict st⟩
  else if !(tableColCount ≤ fileColCount) then
    ⟨IngestResult.assertionError, IncStrategy.skipped, fileColCount, st⟩
  else
    let effCols := if tableColCount < fileColCount then tableColCount else fileColCount
    let st1 := { st with startTimeSet := true }
    let strat :=
      if isPostgresql || recordsExpected fileSize < 500000 then IncStrategy.inPlace
      else IncStrategy.unionMerge
    match outcome with
    | DbOutcome.fatalError =>
        let st2 := { st1 with abortTimeSet := true, didAbort := true }
        ⟨IngestResult.dbError, strat, effCols, updateStatusDict st2⟩
    | DbOutcome.success =>
        let st2 := { st1 with endTimeSet := true }
        ⟨IngestResult.ok, strat, effCols, updateStatusDict st2⟩

/-! ## Table swap (Ingester._renameAndDrop) -/

/-- The database catalog, as a map from table name to the (abstract)
content of the table stored under that name. -/
def TableStore := PyStr → Option Nat

/-- DROP TABLE IF EXISTS n. -/
def dropIfExists (ts : TableStore) (n : PyStr) : TableStore :=
  fun m => if m = n then none else ts m

/-- ALTER TABLE old RENAME TO new: new now holds old's content, old is
gone, everything else is untouched. -/
def renameTable (ts : TableStore) (o n : PyStr) : TableStore :=
  fun m => if m = n then ts o else if m = o then none else ts m

/-- Ingester.tableExists. -/
def tableExistsT (ts : TableStore) (n : PyStr) : Bool := (ts n).isSome

/-- Ingester._renameAndDrop: drop a stale "_old" table; if the target
exists rename it to "_old"; try to rename the source to the target name
(`renameFails` injects a failure of exactly this statement); on failure
rename "_old" back to the target name if it exists; finally drop the
"_old" table if it is still around. -/
def renameAndDrop (renameFails : Bool) (ts : TableStore)
    (sourceTable targetTable : PyStr) : TableStore :=
  let targetOld := targetTable ++ str "_old"
  let ts1 := dropIfExists ts targetOld
  let ts2 := if tableExistsT ts1 targetTable then renameTable ts1 targetTable targetOld else ts1
  let ts3 :=
    if renameFails then
      if tableExistsT ts2 targetOld then renameTable ts2 targetOld targetTable else ts2
    else
      renameTable ts2 sourceTable targetTable
  dropIfExists ts3 targetOld

/-! ## Record splitting and header extraction (EPFParser.py) -/

/-- Python `s.partition(recordDelim)[0]`: everything before the first
occurrence of the record delimiter. -/
def beforeDelim : PyStr → PyStr
  | [] => []
  | c :: rest => if recordDelimL.isPrefixOf (c :: rest) then [] else c :: beforeDelim rest

/-- Python `s.split(d)` for a one-character separator d. -/
def splitChar (d : Char) : PyStr → List PyStr
  | [] => [[]]
  | c :: rest =>
    let r := splitChar d rest
    if c == d then [] :: r else (c :: r.headD []) :: r.tail

/-- Parser.splitRow with no required prefix: cut at the record delimiter,
then split on the field delimiter. -/
def splitRowPlain (rowString : PyStr) : List PyStr :=
  splitChar fieldDelimC (beforeDelim rowString)

/-- Parser.splitRow with a required prefix: raise SubstringNotFound when
the row does not start with the prefix, otherwise strip it (the row
starts with it, so Python's partition removes exactly this leading copy)
and split the remainder. -/
def splitRowReq (rowString reqPref : PyStr) : Except Unit (List PyStr) :=
  if reqPref.isPrefixOf rowString then
    Except.ok (splitRowPlain (rowString.drop reqPref.length))
  else Except.error ()

/-- commentChar + Parser.primaryKeyTag. -/
def primStart : PyStr := str "#primaryKey:"

/-- commentChar + Parser.dataTypesTag. -/
def dtStart : PyStr := str "#dbTypes:"

/-- commentChar + Parser.exportModeTag. -/
def exStart : PyStr := str "#exportMode:"

/-- The three tagged header values Parser.__init__ extracts from the
lookahead rows, with their pre-loop defaults. -/
structure HeaderInfo where
  primaryKey : List PyStr
  dataTypes : List PyStr
  exportMode : Option PyStr
deriving DecidableEq

/-- One iteration of the header-extraction loop of Parser.__init__
(lines 122-131): each tag is recognized by its prefix; a matching row is
split with that prefix required; a primary key list of one empty string
is normalized to the empty list; the narrow DECIMAL(9,3) type is widened;
the export mode is the first field of its row. -/
def parseHeaderStep (h : HeaderInfo) (aRow : PyStr) : Except Unit HeaderInfo :=
  if primStart.isPrefixOf aRow then
    match splitRowReq aRow primStart with
    | Except.error e => Except.error e
    | Except.ok pk =>
        Except.ok { h with primaryKey := if pk = [([] : PyStr)] then [] else pk }
  else if dtStart.isPrefixOf aRow then
    match splitRowReq aRow dtStart with
    | Except.error e => Except.error e
    | Except.ok dts =>
        let dts2 := dts.map (fun dt => if dt = str "DECIMAL(9,3)" then str "DECIMAL(11,3)" else dt)
        Except.ok { h with dataTypes := dts2 }
  else if exStart.isPrefixOf aRow then
    match splitRowReq aRow exStart with
    | Except.error e => Except.error e
    | Except.ok ex => Except.ok { h with exportMode := some (ex.headD []) }
  else Except.ok h

/-- The header-extraction loop over the gathered lookahead rows. -/
def parseHeaderRows : List PyStr → HeaderInfo → Except Unit HeaderInfo
  | [], h => Except.ok h
  | r :: rs, h =>
    match parseHeaderStep h r with
    | Except.error e => Except.error e
    | Except.ok h2 => parseHeaderRows rs h2

/-- Header extraction starting from the defaults set before the loop. -/
def parseHeader (rows : List PyStr) : Except Unit HeaderInfo :=
  parseHeaderRows rows ⟨[], [], none⟩

/-- Parser.__init__ lines 135-136: the index of each primary key column
in the column name list (Python list.index; the spec invariant makes the
key a subset of the columns, so the element is present). -/
def primaryKeyIndexes (pk columnNames : List PyStr) : List Nat :=
  pk.map fun p => columnNames.findIdx fun c => c == p

/-! ## Batch deduplication and escaping (Ingester._escapeRecords) -/

/-- A decoded field: None or a string. -/
abbrev Field := Option PyStr

/-- The primary-key tuple of a record (line 399). -/
def marker (pkIdx : List Nat) (r : List Field) : List Field :=
  pkIdx.map fun i => r.getD i none

/-- The loop of Ingester._escapeRecords: `keys` is the set of key tuples
already seen; a record whose tuple was seen is skipped, otherwise its
tuple is recorded and its escaped form appended.  `esc` stands for the
backend's literal/mogrify escaping of one field. -/
def escapeRecordsGo (esc : Field → PyStr) (pkIdx : List Nat) :
    List (List Field) → List (List Field) → List (List PyStr)
  | [], _ => []
  | r :: rs, seen =>
    if marker pkIdx r ∈ seen then escapeRecordsGo esc pkIdx rs seen
    else r.map esc :: escapeRecordsGo esc pkIdx rs (marker pkIdx r :: seen)

/-- Ingester._escapeRecords. -/
def escapeRecords (esc : Field → PyStr) (pkIdx : List Nat)
    (recordList : List (List Field)) : List (List PyStr) :=
  escapeRecordsGo esc pkIdx recordList []

/-- Specification-side description of first-writer-wins deduplication
(stated independently of the seen-set loop): keep each record and delete
every later record carrying the same key tuple. -/
def keepFirstByKeySpec (pkIdx : List Nat) : List (List Field) → List (List Field)
  | [] => []
  | r :: rs =>
      r :: keepFirstByKeySpec pkIdx (rs.filter fun s => !(marker pkIdx s == marker pkIdx r))
termination_by l => l.length
decreasing_by
  simp only [List.length_cons]
  exact Nat.lt_succ_of_le (List.length_filter_le _ _)

/-! ## Line-level stream model (EPFParser.py framing) -/

/-- A physical line of the decompressed stream is a complete single-line
record: non-empty, not tar zero-fill, and terminated by (containing) the
record delimiter. -/
def simpleRow (l : PyStr) : Bool :=
  (!l.isEmpty) && (!(front l == '\x00')) && endsWithL l recordDelimL
    && containsSub recordDelimL l

/-- A line whose first character is the comment character. -/
def isCom (l : PyStr) : Bool := front l == commentC

/-- End of Parser.nextRowString: None when no line was gathered,
otherwise the concatenation of the gathered lines. -/
def mkRow (acc : List PyStr) : Option PyStr :=
  if acc.isEmpty then none else some (concatAll acc)

/-- The read loop of Parser.nextRowString on the remaining lines of the
stream: stop at end of file or tar zero-fill; skip a comment line when it
would start a row and comments are ignored; gather lines until one ends
with the record delimiter.  Returns the row (or None) and the lines still
unread. -/
def nextRowStringGo (ic : Bool) : List PyStr → List PyStr → Bool → Option PyStr × List PyStr
  | [], acc, _ => (mkRow acc, [])
  | ln :: rest, acc, isFirst =>
    if ln.isEmpty || front ln == '\x00' then (mkRow acc, rest)
    else if front ln == commentC && isFirst && ic then nextRowStringGo ic rest acc isFirst
    else if endsWithL ln recordDelimL then (mkRow (acc ++ [ln]), rest)
    else nextRowStringGo ic rest (acc ++ [ln]) false

/-- Parser.nextRowString. -/
def nextRowString (ic : Bool) (ls : List PyStr) : Option PyStr × List PyStr :=
  nextRowStringGo ic ls [] true

/-- Parser.advanceToNextRecord: always skip comment lines; a line
containing the record delimiter ends the record, and only then is the
record counter bumped (the returned Bool). -/
def advanceGo : List PyStr → Bool × List PyStr
  | [] => (false, [])
  | ln :: rest =>
    if ln.isEmpty then (false, rest)
    else if front ln == commentC then advanceGo rest
    else if containsSub recordDelimL ln then (true, rest)
    else advanceGo rest

/-- advanceToNextRecord iterated. -/
def iterAdvance : Nat → List PyStr → List PyStr
  | 0, ls => ls
  | k+1, ls => iterAdvance k (advanceGo ls).2

/-- Parser.seekToRecord: a non-positive record number is a no-op on the
current position; otherwise reset to just after the fixed 512-byte tar
block (the head of the full line list) and advance recordNum records.
This definition is deliberately charitable: it grants the rewind that the
seekPos property attempts, although the actual eFile is the stdout pipe
of a bunzip2 subprocess (lines 95-97), on which tell()/seek() raise
OSError, so at runtime seekToRecord with a positive argument fails at the
seekPos read (lines 180, 196) before any replay happens.  The charitable
model corresponds to the commented-out seekable io.open stream of lines
91-93 and is used to show that resume misbehaves even if the rewind were
available. -/
def seekLines (fullLs current : List PyStr) (recordNum : Nat) : List PyStr :=
  if recordNum = 0 then current else iterAdvance recordNum fullLs

/-- nextRowString(ignoreComments=False) iterated, discarding the rows:
the stream consumption performed by Parser.__init__, which reads the
column-name row and then 10 lookahead rows. -/
def skipRows : Nat → List PyStr → List PyStr
  | 0, ls => ls
  | n+1, ls => skipRows n (nextRowString false ls).2

/-- The sequence of raw record strings produced by repeated
nextRowString(ignoreComments=True) calls until exhaustion; fuel bounds
the number of reads and any fuel at least the number of remaining lines
is enough. -/
def recordsF : Nat → List PyStr → List PyStr
  | 0, _ => []
  | fuel+1, ls =>
    match nextRowString true ls with
    | (none, _) => []
    | (some r, rest) => r :: recordsF fuel rest

/-- All raw records a fresh (non-resumed) run hands to decoding: the
parser constructor consumes 11 rows, then the populate loop drains the
stream. -/
def fullRunRows (ls : List PyStr) : List PyStr :=
  recordsF ls.length (skipRows 11 ls)

/-- All raw records a resumed run hands to decoding: a fresh parser
(constructor consumes 11 rows) is seeked to record k, then the populate
loop drains the stream. -/
def resumedRows (ls : List PyStr) (k : Nat) : List PyStr :=
  recordsF ls.length (seekLines ls (skipRows 11 ls) k)

/-- Specification-side description: the non-comment lines of the file. -/
def dataOf (ls : List PyStr) : List PyStr := ls.filter fun l => !isCom l

/-! ## Record decoding (Parser.nextRecord) -/

/-- The parser metadata nextRecord consults. -/
structure ParserConfig where
  columnNames : List PyStr
  primaryKeyIndexes : List Nat
  dateColumns : List Nat
  numberColumns : List Nat

/-- nextRecord lines 278-280: replace empty strings by None except in
primary key positions. -/
def nullReplace (pkIdx : List Nat) : Nat → List PyStr → List Field
  | _, [] => []
  | i, v :: rest =>
    (if v = [] ∧ ¬ i ∈ pkIdx then none else some v) :: nullReplace pkIdx (i+1) rest

/-- Python str.strip(). -/
def stripWs (v : PyStr) : PyStr :=
  ((v.dropWhile Char.isWhitespace).reverse.dropWhile Char.isWhitespace).reverse

/-- Python int() on the four-character year prefix; where Python would
raise ValueError (non-digit input) the run would abort, which never
happens on the feed's date formats, so 0 stands in for that case. -/
def parseNatL (v : PyStr) : Nat :=
  if v ≠ [] ∧ v.all Char.isDigit then
    v.foldl (fun acc c => 10 * acc + (c.toNat - 48)) 0
  else 0

/-- nextRecord lines 286-305: the date massage for one value. -/
def massageDate (todayYear : Nat) (v0 : PyStr) : PyStr :=
  let v1 := stripWs v0
  let v2 :=
    if 3 < v1.length then
      if v1.getD 2 ' ' == ' ' || v1.getD 2 ' ' == '-' then
        let w := str "20" ++ v1
        if todayYear < parseNatL (w.take 4) then str "19" ++ w.drop 2 else w
      else if v1.getD 1 ' ' == ' ' || v1.getD 1 ' ' == '-' then
        let w := str "200" ++ v1
        if todayYear < parseNatL (w.take 4) then str "199" ++ w.drop 3 else w
      else v1
    else v1
  let v3 := (v2.take 19).map fun c => if c == '-' then ' ' else c
  if v3.length = 4 then v3 ++ str "-01-01" else v3

/-- The date loop of nextRecord: only truthy values (a non-empty string)
are massaged. -/
def datePass (todayYear : Nat) (cols : List Nat) (rec : List Field) : List Field :=
  cols.foldl
    (fun r j =>
      match r.getD j none with
      | some v => if v ≠ [] then r.set j (some (massageDate todayYear v)) else r
      | none => r)
    rec

/-- nextRecord line 312: strip every character other than digits, dot and
minus (the regex [^0-9.-] substitution). -/
def sanitizeNumber (v : PyStr) : PyStr :=
  v.filter fun c => c.isDigit || c == '.' || c == '-'

/-- The numeric loop of nextRecord lines 308-317: a truthy value that
does not start with an ASCII digit is sanitized; a value sanitized to the
empty string makes the whole record unrecoverable (None). -/
def numberPass : List Nat → List Field → Option (List Field)
  | [], rec => some rec
  | j :: js, rec =>
    match rec.getD j none with
    | some v =>
        if v ≠ [] ∧ (front v).isDigit = false then
          if sanitizeNumber v = [] then none
          else numberPass js (rec.set j (some (sanitizeNumber v)))
        else numberPass js rec
    | none => numberPass js rec

/-- The body of Parser.nextRecord on one raw record string: split, trim
to the declared column count, apply the null policy, the date massage and
the numeric sanitization; None means the record is discarded. -/
def decodeRow (cfg : ParserConfig) (todayYear : Nat) (rowString : PyStr) :
    Option (List Field) :=
  let rec1 := (splitRowPlain rowString).take cfg.columnNames.length
  let rec2 := nullReplace cfg.primaryKeyIndexes 0 rec1
  let rec3 := datePass todayYear cfg.dateColumns rec2
  numberPass cfg.numberColumns rec3

/-- Parser.nextRecord including its self-recursion: when the decoded
record is discarded as malformed, decoding recurses to return the next
record; fuel bounds the recursion depth. -/
def nextRecordS (cfg : ParserConfig) (todayYear : Nat) :
    Nat → List PyStr → Option (List Field) × List PyStr
  | 0, ls => (none, ls)
  | fuel+1, ls =>
    match nextRowString true ls with
    | (none, ls2) => (none, ls2)
    | (some row, ls2) =>
      match decodeRow cfg todayYear row with
      | some rec => (some rec, ls2)
      | none => nextRecordS cfg todayYear fuel ls2

/-- The decoded rows a run writes, as a function of the raw record
stream: each raw record either decodes or is skipped. -/
def decodedRowsF (cfg : ParserConfig) (todayYear fuel : Nat) (ls : List PyStr) :
    List (List Field) :=
  (recordsF fuel ls).filterMap (decodeRow cfg todayYear)

/-! ## Concrete inputs used by witnesses -/

/-- A feed shaped like a real EPF export: four header comment rows (the
column declaration and the three tags), then data records d5 to d15, one
per delimiter-terminated line. -/
def c5badlines : List PyStr :=
  [str "#cols\x02\n", str "#primaryKey:k\x02\n", str "#dbTypes:V\x02\n",
   str "#exportMode:FULL\x02\n", str "d5\x02\n", str "d6\x02\n", str "d7\x02\n",
   str "d8\x02\n", str "d9\x02\n", str "d10\x02\n", str "d11\x02\n", str "d12\x02\n",
   str "d13\x02\n", str "d14\x02\n", str "d15\x02\n"]

/-- A feed whose 11-row lookahead window contains genuine data records
(rows 3 to 11), followed by two more data records. -/
def c10lines : List PyStr :=
  [str "#cols\x02\n", str "#primaryKey:\x02\n", str "d1\x02\n", str "d2\x02\n",
   str "d3\x02\n", str "d4\x02\n", str "d5\x02\n", str "d6\x02\n", str "d7\x02\n",
   str "d8\x02\n", str "d9\x02\n", str "x\x02\n", str "y\x02\n"]

/-- A one-column parser configuration whose single column is numeric. -/
def c7cfg : ParserConfig := ⟨[str "price"], [], [], [0]⟩

/-- A concrete catalog for the claim C6 witness: a live table (content 1)
and a staging table (content 2). -/
def witnessStore : TableStore :=
  fun n => if n = str "live" then some 1 else if n = str "live_tmp" then some 2 else none

/-! # Theorems -/

lemma ne_append_old (s : PyStr) : s ≠ s ++ str "_old" := by
  intro h
  have hl := congrArg List.length h
  simp [str] at hl

/-- Claim C8: an incremental ingest updates the live table in place
exactly when the backend is PostgreSQL or the estimated record count is
below 500,000, and the estimate is below that threshold exactly when the
compressed input file is smaller than 100,000,000 bytes; in every other
case the union-merge path runs. -/
theorem claim_C8 (tc fc : Nat) (pg : Bool) (sz : Nat) (outcome : DbOutcome)
    (st : JobState) (hcols : tc ≤ fc) :
    ((ingestIncremental true tc fc pg sz outcome st).strategy = IncStrategy.inPlace
        ↔ (pg = true ∨ sz < 100000000))
    ∧ ((ingestIncremental true tc fc pg sz outcome st).strategy = IncStrategy.unionMerge
        ↔ ¬(pg = true ∨ sz < 100000000))
    ∧ (recordsExpected sz < 500000 ↔ sz < 100000000) := by
  by_cases hsz : sz < 100000000 <;>
    cases pg <;> cases outcome <;>
      simp [ingestIncremental, recordsExpected, hcols, hsz]

/-- Witness for claim C8 at a concrete input. -/
theorem claim_C8_witness :
    (ingestIncremental true 2 2 false 5 DbOutcome.success initialJobState).strategy
      = IncStrategy.inPlace ∧ 5 < 100000000 := by
  have h := claim_C8 2 2 false 5 DbOutcome.success initialJobState (by decide)
  exact ⟨h.1.mpr (Or.inr (by decide)), by decide⟩

/-- Claim C3 as stated is false: with an existing live table of 3 columns
and a file declaring 2 columns (fewer than the table), the ingest is
rejected with an assertion failure rather than tolerated; and with a
table of 2 columns and a file of 3 (more than the table), the ingest is
accepted rather than rejected. -/
theorem claim_C3_counterexample :
    (ingestIncremental true 3 2 false 5 DbOutcome.success initialJobState).result
      = IngestResult.assertionError
    ∧ (ingestIncremental true 2 3 false 5 DbOutcome.success initialJobState).result
      = IngestResult.ok := by decide

/-- Claim C3 (amended): the feed file may declare no fewer columns than
the table: a file with fewer columns than the table is rejected as a
structural invariant violation (assertion failure), while a file with
more columns than the table is tolerated, its decoded columns trimmed to
the table's column count. -/
theorem claim_C3 (tc fc : Nat) (pg : Bool) (sz : Nat) (outcome : DbOutcome)
    (st : JobState) :
    (fc < tc →
      (ingestIncremental true tc fc pg sz outcome st).result
        = IngestResult.assertionError)
    ∧ (tc ≤ fc →
      (ingestIncremental true tc fc pg sz outcome st).result
          ≠ IngestResult.assertionError
        ∧ (ingestIncremental true tc fc pg sz outcome st).effectiveFileCols = tc) := by
  constructor
  · intro h
    simp [ingestIncremental, Nat.not_le.mpr h]
  · intro h
    rcases Nat.lt_or_ge tc fc with h2 | h2
    · cases outcome <;> simp [ingestIncremental, h, h2]
    · have he : tc = fc := Nat.le_antisymm h h2
      subst he
      cases outcome <;> simp [ingestIncremental]

/-- Witness for claim C3 at a concrete input. -/
theorem claim_C3_witness :
    (ingestIncremental true 2 3 false 5 DbOutcome.success initialJobState).result
        ≠ IngestResult.assertionError
    ∧ (ingestIncremental true 2 3 false 5 DbOutcome.success initialJobState).effectiveFileCols
        = 2 := by
  exact (claim_C3 2 3 false 5 DbOutcome.success initialJobState).2 (by decide)

/-- Claim C4 as stated is false: a fatal backend error during a resumed
full ingest is re-raised to the caller, but the job never transitions to
Aborted — the aborted flag and abort timestamp stay unset. -/
theorem claim_C4_counterexample :
    (ingestFullResume 5000 DbOutcome.fatalError initialJobState).1 = IngestResult.dbError
    ∧ (ingestFullResume 5000 DbOutcome.fatalError initialJobState).2.didAbort = false
    ∧ (ingestFullResume 5000 DbOutcome.fatalError initialJobState).2.abortTimeSet
        = false := by decide

/-- Claim C4 (amended): for the full and incremental ingest strategies a
fatal backend error sets the aborted flag, records an abort timestamp and
refreshes the status snapshot before the error is re-raised; the resumed
full ingest re-raises the error without entering Aborted — its abort
fields and status snapshot are left exactly as they were. -/
theorem claim_C4 (st : JobState) (fr : Int) (tc fc : Nat) (pg : Bool) (sz : Nat)
    (hcols : tc ≤ fc) :
    ((ingestFull DbOutcome.fatalError st).1 = IngestResult.dbError
      ∧ (ingestFull DbOutcome.fatalError st).2.didAbort = true
      ∧ (ingestFull DbOutcome.fatalError st).2.abortTimeSet = true
      ∧ (ingestFull DbOutcome.fatalError st).2.statusDidAbort = true
      ∧ (ingestFull DbOutcome.fatalError st).2.statusAbortTimeSet = true)
    ∧ ((ingestIncremental true tc fc pg sz DbOutcome.fatalError st).result
          = IngestResult.dbError
      ∧ (ingestIncremental true tc fc pg sz DbOutcome.fatalError st).state.didAbort = true
      ∧ (ingestIncremental true tc fc pg sz DbOutcome.fatalError st).state.abortTimeSet = true
      ∧ (ingestIncremental true tc fc pg sz DbOutcome.fatalError st).state.statusDidAbort
          = true)
    ∧ ((ingestFullResume fr DbOutcome.fatalError st).1 = IngestResult.dbError
      ∧ (ingestFullResume fr DbOutcome.fatalError st).2.didAbort = st.didAbort
      ∧ (ingestFullResume fr DbOutcome.fatalError st).2.abortTimeSet = st.abortTimeSet
      ∧ (ingestFullResume fr DbOutcome.fatalError st).2.statusDidAbort
          = st.statusDidAbort) := by
  refine ⟨?_, ?_, ?_⟩ <;>
    simp [ingestFull, ingestFullResume, ingestIncremental, updateStatusDict, hcols]

/-- Witness for claim C4 at a concrete input. -/
theorem claim_C4_witness :
    (ingestFull DbOutcome.fatalError initialJobState).2.didAbort = true
    ∧ (ingestIncremental true 2 2 false 5 DbOutcome.fatalError initialJobState).state.didAbort
        = true
    ∧ (ingestFullResume 7 DbOutcome.fatalError initialJobState).2.didAbort
        = initialJobState.didAbort := by
  have h := claim_C4 initialJobState 7 2 2 false 5 (by decide)
  exact ⟨h.1.2.1, h.2.1.2.1, h.2.2.2.1⟩

/-- Claim C6: if renaming the staging table to the live name fails after
the previous live table was renamed to the old name, the swap reverts:
the original live table is present intact under the live name, the
staging table keeps its own name, and no table holds the old name; on
success the staging contents hold the live name, the old table is
dropped, and the staging name is gone. -/
theorem claim_C6 (ts : TableStore) (src tgt : PyStr) (liveId stagingId : Nat)
    (hlive : ts tgt = some liveId) (hstg : ts src = some stagingId)
    (hne : src ≠ tgt) (hne2 : src ≠ tgt ++ str "_old") :
    (renameAndDrop true ts src tgt tgt = some liveId
      ∧ renameAndDrop true ts src tgt src = some stagingId
      ∧ renameAndDrop true ts src tgt (tgt ++ str "_old") = none)
    ∧ (renameAndDrop false ts src tgt tgt = some stagingId
      ∧ renameAndDrop false ts src tgt (tgt ++ str "_old") = none
      ∧ renameAndDrop false ts src tgt src = none) := by
  have hold := ne_append_old tgt
  simp [renameAndDrop, dropIfExists, renameTable, tableExistsT, hold, hlive, hstg,
    hne, hne2, Ne.symm hold]

/-- Witness for claim C6 at a concrete input. -/
theorem claim_C6_witness :
    renameAndDrop true witnessStore (str "live_tmp") (str "live") (str "live") = some 1
    ∧ renameAndDrop false witnessStore (str "live_tmp") (str "live") (str "live")
        = some 2 := by
  have h := claim_C6 witnessStore (str "live_tmp") (str "live") 1 2
    (by decide) (by decide) (by decide) (by decide)
  exact ⟨h.1.1, h.2.1⟩

/-! ## Deduplication theorems (claims C1 and C9) -/

lemma escapeRecordsGo_eq_keepFirst (esc : Field → PyStr) (pkIdx : List Nat) :
    ∀ (rs : List (List Field)) (seen : List (List Field)),
      escapeRecordsGo esc pkIdx rs seen
        = (keepFirstByKeySpec pkIdx
            (rs.filter fun r => !(decide (marker pkIdx r ∈ seen)))).map (List.map esc) := by
  intro rs
  induction rs with
  | nil => intro seen; simp [escapeRecordsGo, keepFirstByKeySpec]
  | cons r rs ih =>
    intro seen
    by_cases hm : marker pkIdx r ∈ seen
    · rw [escapeRecordsGo, if_pos hm, ih seen]
      simp [hm]
    · rw [escapeRecordsGo, if_neg hm, ih (marker pkIdx r :: seen)]
      have hfil :
          rs.filter (fun s => !(decide (marker pkIdx s ∈ marker pkIdx r :: seen)))
            = (rs.filter fun s => !(decide (marker pkIdx s ∈ seen))).filter
                (fun s => !(marker pkIdx s == marker pkIdx r)) := by
        rw [List.filter_filter]
        apply List.filter_congr
        intro s _
        by_cases h1 : marker pkIdx s = marker pkIdx r
        · simp [h1]
        · by_cases h2 : marker pkIdx s ∈ seen <;> simp [h1, h2]
      rw [hfil]
      have hcons :
          (r :: rs).filter (fun s => !(decide (marker pkIdx s ∈ seen)))
            = r :: rs.filter (fun s => !(decide (marker pkIdx s ∈ seen))) := by
        simp [hm]
      rw [hcons, keepFirstByKeySpec]
      simp

/-- The loop of _escapeRecords is exactly escape-after-first-writer-wins
deduplication. -/
lemma escapeRecords_eq_keepFirst (esc : Field → PyStr) (pkIdx : List Nat)
    (rs : List (List Field)) :
    escapeRecords esc pkIdx rs = (keepFirstByKeySpec pkIdx rs).map (List.map esc) := by
  rw [escapeRecords, escapeRecordsGo_eq_keepFirst]
  simp

/-- Claim C1 as stated (last-writer-wins) is false: in a batch of two
rows sharing the primary-key tuple (index 0), the writer receives the
escaped first row, not the escaped second row. -/
theorem claim_C1_counterexample :
    escapeRecords (fun f => f.getD (str "NULL")) [0]
        [[some (str "k"), some (str "a")], [some (str "k"), some (str "b")]]
      = [[str "k", str "a"]]
    ∧ escapeRecords (fun f => f.getD (str "NULL")) [0]
        [[some (str "k"), some (str "a")], [some (str "k"), some (str "b")]]
      ≠ [[str "k", str "b"]] := by decide

/-- Claim C1 (amended): batch deduplication is first-writer-wins — for
every batch handed to the writer, the retained (escaped and written) rows
are exactly the first row of each primary-key tuple, and every later row
with an already-seen key tuple is dropped. -/
theorem claim_C1 (esc : Field → PyStr) (pkIdx : List Nat) (rs : List (List Field)) :
    escapeRecords esc pkIdx rs = (keepFirstByKeySpec pkIdx rs).map (List.map esc) :=
  escapeRecords_eq_keepFirst esc pkIdx rs

lemma escapeRecordsGo_emptyKey (esc : Field → PyStr) :
    ∀ (rs : List (List Field)) (seen : List (List Field)),
      ([] : List Field) ∈ seen → escapeRecordsGo esc [] rs seen = [] := by
  intro rs
  induction rs with
  | nil => intro seen _; rfl
  | cons r rs ih =>
    intro seen hm
    rw [escapeRecordsGo, if_pos (by simpa [marker] using hm)]
    exact ih seen hm

/-- Claim C9: a feed that declares an empty primary key (the bare tag row
normalizes the key list of one empty string to the empty list) keys every
row on the empty tuple, so of every non-empty batch only the first row
survives escaping and is written. -/
theorem claim_C9 (esc : Field → PyStr) (cols : List PyStr) (recs : List (List Field))
    (hne : recs ≠ []) :
    parseHeader [primStart ++ recordDelimL] = Except.ok ⟨[], [], none⟩
    ∧ primaryKeyIndexes [] cols = []
    ∧ escapeRecords esc (primaryKeyIndexes [] cols) recs
        = [(recs.headD []).map esc] := by
  refine ⟨rfl, rfl, ?_⟩
  cases recs with
  | nil => exact absurd rfl hne
  | cons r rs =>
    rw [primaryKeyIndexes, List.map_nil, escapeRecords, escapeRecordsGo]
    rw [if_neg (by simp)]
    rw [escapeRecordsGo_emptyKey esc rs [marker [] r] (by simp [marker])]
    simp

/-- Witness for claim C9 at a concrete input. -/
theorem claim_C9_witness :
    escapeRecords (fun f => f.getD (str "NULL")) (primaryKeyIndexes [] [str "a", str "b"])
        [[some (str "x")], [some (str "y")], [some (str "z")]]
      = [[str "x"]] := by
  have h := claim_C9 (fun f => f.getD (str "NULL")) [str "a", str "b"]
    [[some (str "x")], [some (str "y")], [some (str "z")]] (by decide)
  simpa using h.2.2

/-! ## Header extraction theorems (claim C2) -/

lemma parseHeaderStep_ok (h : HeaderInfo) (r : PyStr) :
    ∃ h2, parseHeaderStep h r = Except.ok h2
      ∧ (primStart.isPrefixOf r = false → h2.primaryKey = h.primaryKey)
      ∧ (dtStart.isPrefixOf r = false → h2.dataTypes = h.dataTypes)
      ∧ (exStart.isPrefixOf r = false → h2.exportMode = h.exportMode) := by
  by_cases h1 : primStart.isPrefixOf r = true
  · refine ⟨_, by simp [parseHeaderStep, splitRowReq, h1]; rfl, ?_, ?_, ?_⟩
    · intro hc; rw [h1] at hc; cases hc
    · intro _; rfl
    · intro _; rfl
  · by_cases h2 : dtStart.isPrefixOf r = true
    · refine ⟨_, by simp [parseHeaderStep, splitRowReq, h1, h2]; rfl, ?_, ?_, ?_⟩
      · intro _; rfl
      · intro hc; rw [h2] at hc; cases hc
      · intro _; rfl
    · by_cases h3 : exStart.isPrefixOf r = true
      · refine ⟨_, by simp [parseHeaderStep, splitRowReq, h1, h2, h3]; rfl, ?_, ?_, ?_⟩
        · intro _; rfl
        · intro _; rfl
        · intro hc; rw [h3] at hc; cases hc
      · exact ⟨h, by simp [parseHeaderStep, h1, h2, h3], fun _ => rfl, fun _ => rfl,
          fun _ => rfl⟩

lemma parseHeaderRows_ok (rs : List PyStr) :
    ∀ h : HeaderInfo, ∃ h2, parseHeaderRows rs h = Except.ok h2
      ∧ ((∀ r ∈ rs, primStart.isPrefixOf r = false) → h2.primaryKey = h.primaryKey)
      ∧ ((∀ r ∈ rs, dtStart.isPrefixOf r = false) → h2.dataTypes = h.dataTypes)
      ∧ ((∀ r ∈ rs, exStart.isPrefixOf r = false) → h2.exportMode = h.exportMode) := by
  induction rs with
  | nil => exact fun h => ⟨h, rfl, fun _ => rfl, fun _ => rfl, fun _ => rfl⟩
  | cons r rs ih =>
    intro h
    obtain ⟨hmid, hstep, hp1, hd1, he1⟩ := parseHeaderStep_ok h r
    obtain ⟨h2, hrun, hp2, hd2, he2⟩ := ih hmid
    refine ⟨h2, ?_, ?_, ?_, ?_⟩
    · rw [parseHeaderRows, hstep]; exact hrun
    · intro hall
      rw [hp2 fun x hx => hall x (List.mem_cons_of_mem _ hx)]
      exact hp1 (hall r (List.mem_cons_self _ _))
    · intro hall
      rw [hd2 fun x hx => hall x (List.mem_cons_of_mem _ hx)]
      exact hd1 (hall r (List.mem_cons_self _ _))
    · intro hall
      rw [he2 fun x hx => hall x (List.mem_cons_of_mem _ hx)]
      exact he1 (hall r (List.mem_cons_self _ _))

/-- Claim C2 as stated is false: on a lookahead in which none of the
three tagged header declarations occurs, header extraction raises no
format error at all — it succeeds and leaves every tag at its default. -/
theorem claim_C2_counterexample :
    parseHeader [str "#storefront_id\x01country_code\x02\n", str "1\x012\x02\n"]
      = Except.ok (⟨[], [], none⟩ : HeaderInfo) := rfl

/-- Claim C2 (amended): header extraction never fails on the lookahead
rows; a tagged declaration whose expected prefix is absent from every row
is simply left at its default (empty primary key list, empty data type
list, no export mode), and parsing proceeds with that value missing. -/
theorem claim_C2 (rows : List PyStr) :
    (∃ h2, parseHeader rows = Except.ok h2)
    ∧ ((∀ r ∈ rows, primStart.isPrefixOf r = false) →
        ∀ h2, parseHeader rows = Except.ok h2 → h2.primaryKey = [])
    ∧ ((∀ r ∈ rows, dtStart.isPrefixOf r = false) →
        ∀ h2, parseHeader rows = Except.ok h2 → h2.dataTypes = [])
    ∧ ((∀ r ∈ rows, exStart.isPrefixOf r = false) →
        ∀ h2, parseHeader rows = Except.ok h2 → h2.exportMode = none) := by
  obtain ⟨h2, hok, hp, hd, he⟩ := parseHeaderRows_ok rows ⟨[], [], none⟩
  refine ⟨⟨h2, hok⟩, ?_, ?_, ?_⟩
  · intro hall h3 hok3
    rw [parseHeader, hok] at hok3
    cases hok3
    exact hp hall
  · intro hall h3 hok3
    rw [parseHeader, hok] at hok3
    cases hok3
    exact hd hall
  · intro hall h3 hok3
    rw [parseHeader, hok] at hok3
    cases hok3
    exact he hall

/-- Witness for claim C2 at a concrete input. -/
theorem claim_C2_witness :
    parseHeader [str "#zzz\x02\n"] = Except.ok (⟨[], [], none⟩ : HeaderInfo) := by
  obtain ⟨hc, hok⟩ := (claim_C2 [str "#zzz\x02\n"]).1
  have hp := (claim_C2 [str "#zzz\x02\n"]).2.1 (by decide) hc hok
  have hd := (claim_C2 [str "#zzz\x02\n"]).2.2.1 (by decide) hc hok
  have he := (claim_C2 [str "#zzz\x02\n"]).2.2.2 (by decide) hc hok
  cases hc
  simp only at hp hd he
  subst hp
  subst hd
  subst he
  exact hok

/-! ## Stream framing lemmas (claims C5, C10) -/

lemma simpleRow_parts (l : PyStr) (h : simpleRow l = true) :
    l.isEmpty = false ∧ (front l == '\x00') = false
      ∧ endsWithL l recordDelimL = true ∧ containsSub recordDelimL l = true := by
  simp only [simpleRow, Bool.and_eq_true, Bool.not_eq_true'] at h
  exact ⟨h.1.1.1, h.1.1.2, h.1.2, h.2⟩

lemma nextRow_false_cons (ln : PyStr) (rest : List PyStr) (h : simpleRow ln = true) :
    nextRowString false (ln :: rest) = (some ln, rest) := by
  obtain ⟨h1, h2, h3, _⟩ := simpleRow_parts ln h
  simp [nextRowString, nextRowStringGo, h1, h2, h3, mkRow, concatAll]

lemma nextRow_true_comment (ln : PyStr) (rest : List PyStr) (hs : simpleRow ln = true)
    (hc : isCom ln = true) :
    nextRowString true (ln :: rest) = nextRowString true rest := by
  obtain ⟨h1, h2, _, _⟩ := simpleRow_parts ln hs
  simp only [isCom] at hc
  simp [nextRowString, nextRowStringGo, h1, h2, hc]

lemma nextRow_true_data (ln : PyStr) (rest : List PyStr) (hs : simpleRow ln = true)
    (hc : isCom ln = false) :
    nextRowString true (ln :: rest) = (some ln, rest) := by
  obtain ⟨h1, h2, h3, _⟩ := simpleRow_parts ln hs
  simp only [isCom] at hc
  simp [nextRowString, nextRowStringGo, h1, h2, h3, hc, mkRow, concatAll]

lemma skipRows_eq_drop (n : Nat) :
    ∀ ls : List PyStr, (∀ l ∈ ls, simpleRow l = true) → skipRows n ls = ls.drop n := by
  induction n with
  | zero => intro ls _; rfl
  | succ n ih =>
    intro ls h
    cases ls with
    | nil =>
      rw [skipRows]
      have hnil : (nextRowString false ([] : List PyStr)).2 = [] := rfl
      rw [hnil, ih [] (by simp)]
      simp
    | cons ln rest =>
      rw [skipRows, nextRow_false_cons ln rest (h ln (by simp))]
      rw [ih rest fun l hl => h l (List.mem_cons_of_mem _ hl)]
      rfl

lemma dropWhile_head_not (p : PyStr → Bool) :
    ∀ (ls : List PyStr) (l : PyStr) (t : List PyStr), ls.dropWhile p = l :: t → p l = false := by
  intro ls
  induction ls with
  | nil => intro l t hd; simp at hd
  | cons a rest ih =>
    intro l t hd
    rw [List.dropWhile_cons] at hd
    by_cases hc : p a = true
    · rw [if_pos hc] at hd; exact ih l t hd
    · rw [if_neg hc] at hd
      cases hd
      exact Bool.eq_false_iff.mpr hc

lemma dropWhile_nil_all (p : PyStr → Bool) :
    ∀ ls : List PyStr, ls.dropWhile p = [] → ∀ x ∈ ls, p x = true := by
  intro ls
  induction ls with
  | nil => intro _ x hx; cases hx
  | cons a rest ih =>
    intro hd x hx
    rw [List.dropWhile_cons] at hd
    by_cases hc : p a = true
    · rw [if_pos hc] at hd
      rcases List.mem_cons.mp hx with h | h
      · subst h; exact hc
      · exact ih hd x h
    · rw [if_neg hc] at hd; cases hd

lemma mem_takeWhile_sat (p : PyStr → Bool) :
    ∀ ls : List PyStr, ∀ x ∈ ls.takeWhile p, p x = true := by
  intro ls
  induction ls with
  | nil => intro x hx; cases hx
  | cons a rest ih =>
    intro x hx
    rw [List.takeWhile_cons] at hx
    by_cases hc : p a = true
    · rw [if_pos hc] at hx
      rcases List.mem_cons.mp hx with h | h
      · subst h; exact hc
      · exact ih x h
    · rw [if_neg hc] at hx; cases hx

lemma dataOf_dropWhile (ls : List PyStr) (l : PyStr) (t : List PyStr)
    (hd : ls.dropWhile isCom = l :: t) : dataOf ls = l :: dataOf t := by
  have hl : isCom l = false := dropWhile_head_not isCom ls l t hd
  conv_lhs => rw [dataOf, ← List.takeWhile_append_dropWhile (p := isCom) (l := ls)]
  rw [List.filter_append, hd]
  have hnil : (ls.takeWhile isCom).filter (fun x => !isCom x) = [] := by
    rw [List.filter_eq_nil_iff]
    intro a ha
    simp [mem_takeWhile_sat isCom ls a ha]
  rw [hnil, List.filter_cons]
  simp [hl, dataOf]

lemma nextRow_true_allCom (ls : List PyStr) (hs : ∀ l ∈ ls, simpleRow l = true)
    (hall : ∀ l ∈ ls, isCom l = true) : nextRowString true ls = (none, []) := by
  induction ls with
  | nil => rfl
  | cons ln rest ih =>
    rw [nextRow_true_comment ln rest (hs ln (by simp)) (hall ln (by simp))]
    exact ih (fun l hl => hs l (List.mem_cons_of_mem _ hl))
      (fun l hl => hall l (List.mem_cons_of_mem _ hl))

lemma nextRow_true_dropWhile (ls : List PyStr) (l : PyStr) (t : List PyStr)
    (hs : ∀ x ∈ ls, simpleRow x = true) (hd : ls.dropWhile isCom = l :: t) :
    nextRowString true ls = (some l, t) := by
  induction ls with
  | nil => simp at hd
  | cons a rest ih =>
    rw [List.dropWhile_cons] at hd
    by_cases hc : isCom a = true
    · rw [if_pos hc] at hd
      rw [nextRow_true_comment a rest (hs a (by simp)) hc]
      exact ih (fun x hx => hs x (List.mem_cons_of_mem _ hx)) hd
    · rw [if_neg hc] at hd
      cases hd
      exact nextRow_true_data l t (hs l (List.mem_cons_self _ _)) (Bool.eq_false_iff.mpr hc)

lemma recordsF_eq_dataOf (fuel : Nat) :
    ∀ ls : List PyStr, (∀ l ∈ ls, simpleRow l = true) → ls.length ≤ fuel →
      recordsF fuel ls = dataOf ls := by
  induction fuel with
  | zero =>
    intro ls _ hlen
    have : ls = [] := List.eq_nil_of_length_eq_zero (Nat.le_zero.mp hlen)
    subst this; rfl
  | succ fuel ih =>
    intro ls hs hlen
    cases hd : ls.dropWhile isCom with
    | nil =>
      rw [recordsF, nextRow_true_allCom ls hs (dropWhile_nil_all isCom ls hd)]
      have : dataOf ls = [] := by
        rw [dataOf, List.filter_eq_nil_iff]
        intro a ha
        simp [dropWhile_nil_all isCom ls hd a ha]
      rw [this]
    | cons l t =>
      rw [recordsF, nextRow_true_dropWhile ls l t hs hd]
      show l :: recordsF fuel t = dataOf ls
      have hsubl : l :: t ⊆ ls := hd ▸ (List.dropWhile_sublist (p := isCom) (l := ls)).subset
      have hst : ∀ x ∈ t, simpleRow x = true :=
        fun x hx => hs x (hsubl (List.mem_cons_of_mem _ hx))
      have hlent : t.length ≤ fuel := by
        have h1 : (l :: t).length ≤ ls.length :=
          (hd ▸ List.dropWhile_sublist (p := isCom) (l := ls)).length_le
        simp only [List.length_cons] at h1
        omega
      rw [ih t hst hlent, dataOf_dropWhile ls l t hd]

lemma advance_comment (ln : PyStr) (rest : List PyStr) (hs : simpleRow ln = true)
    (hc : isCom ln = true) : advanceGo (ln :: rest) = advanceGo rest := by
  obtain ⟨h1, _, _, _⟩ := simpleRow_parts ln hs
  simp only [isCom] at hc
  simp [advanceGo, h1, hc]

lemma advance_data (ln : PyStr) (rest : List PyStr) (hs : simpleRow ln = true)
    (hc : isCom ln = false) : advanceGo (ln :: rest) = (true, rest) := by
  obtain ⟨h1, _, _, h4⟩ := simpleRow_parts ln hs
  simp only [isCom] at hc
  simp [advanceGo, h1, hc, h4]

lemma advance_allCom (ls : List PyStr) (hs : ∀ l ∈ ls, simpleRow l = true)
    (hall : ∀ l ∈ ls, isCom l = true) : advanceGo ls = (false, []) := by
  induction ls with
  | nil => rfl
  | cons ln rest ih =>
    rw [advance_comment ln rest (hs ln (by simp)) (hall ln (by simp))]
    exact ih (fun l hl => hs l (List.mem_cons_of_mem _ hl))
      (fun l hl => hall l (List.mem_cons_of_mem _ hl))

lemma advance_dropWhile (ls : List PyStr) (l : PyStr) (t : List PyStr)
    (hs : ∀ x ∈ ls, simpleRow x = true) (hd : ls.dropWhile isCom = l :: t) :
    advanceGo ls = (true, t) := by
  induction ls with
  | nil => simp at hd
  | cons a rest ih =>
    rw [List.dropWhile_cons] at hd
    by_cases hc : isCom a = true
    · rw [if_pos hc] at hd
      rw [advance_comment a rest (hs a (by simp)) hc]
      exact ih (fun x hx => hs x (List.mem_cons_of_mem _ hx)) hd
    · rw [if_neg hc] at hd
      cases hd
      exact advance_data l t (hs l (List.mem_cons_self _ _)) (Bool.eq_false_iff.mpr hc)

lemma iterAdvance_props (k : Nat) :
    ∀ ls : List PyStr, (∀ l ∈ ls, simpleRow l = true) →
      (∀ x ∈ iterAdvance k ls, simpleRow x = true)
      ∧ (iterAdvance k ls).length ≤ ls.length
      ∧ dataOf (iterAdvance k ls) = (dataOf ls).drop k := by
  induction k with
  | zero => intro ls hs; exact ⟨hs, Nat.le_refl _, rfl⟩
  | succ k ih =>
    intro ls hs
    rw [iterAdvance]
    cases hd : ls.dropWhile isCom with
    | nil =>
      have hall := dropWhile_nil_all isCom ls hd
      rw [advance_allCom ls hs hall]
      obtain ⟨ha, hb, hc2⟩ := ih [] (by simp)
      have hdata : dataOf ls = [] := by
        rw [dataOf, List.filter_eq_nil_iff]
        intro a haa
        simp [hall a haa]
      have e1 : dataOf ([] : List PyStr) = [] := rfl
      refine ⟨ha, hb.trans (Nat.zero_le _), ?_⟩
      rw [hc2, hdata, e1]
      simp
    | cons l t =>
      rw [advance_dropWhile ls l t hs hd]
      have hsubl : l :: t ⊆ ls := hd ▸ (List.dropWhile_sublist (p := isCom) (l := ls)).subset
      have hst : ∀ x ∈ t, simpleRow x = true :=
        fun x hx => hs x (hsubl (List.mem_cons_of_mem _ hx))
      obtain ⟨ha, hb, hc2⟩ := ih t hst
      have hlent : t.length ≤ ls.length := by
        have h1 : (l :: t).length ≤ ls.length :=
          (hd ▸ List.dropWhile_sublist (p := isCom) (l := ls)).length_le
        simp only [List.length_cons] at h1
        omega
      refine ⟨ha, hb.trans hlent, ?_⟩
      rw [hc2, dataOf_dropWhile ls l t hd]
      rfl

lemma fullRunRows_eq (ls : List PyStr) (hs : ∀ l ∈ ls, simpleRow l = true) :
    fullRunRows ls = dataOf (ls.drop 11) := by
  rw [fullRunRows, skipRows_eq_drop 11 ls hs]
  apply recordsF_eq_dataOf
  · exact fun l hl => hs l (List.drop_subset 11 ls hl)
  · rw [List.length_drop]; omega

/-- Claim C10: parser construction unconditionally consumes the first 11
records of the file (the first record plus a 10-record lookahead) whether
or not they are comment lines, and a fresh non-resumed run then returns
exactly the non-comment records from the 12th record onward — any data
record among the first 11 is discarded and never returned. -/
theorem claim_C10 (ls : List PyStr) (hs : ∀ l ∈ ls, simpleRow l = true) :
    skipRows 11 ls = ls.drop 11 ∧ fullRunRows ls = dataOf (ls.drop 11) :=
  ⟨skipRows_eq_drop 11 ls hs, fullRunRows_eq ls hs⟩

/-- Witness for claim C10 at a concrete input: rows 3 to 11 are data
records, yet the fresh run returns only the records from row 12 on. -/
theorem claim_C10_witness :
    fullRunRows c10lines = dataOf (c10lines.drop 11)
    ∧ dataOf (c10lines.drop 11) = [str "x\x02\n", str "y\x02\n"] :=
  ⟨(claim_C10 c10lines (by decide)).2, by decide⟩

/-- Claim C5: resume equivalence fails on the code.  On a feed shaped
like a real EPF export (four header comment rows, then data, each line a
delimited record), the uninterrupted run returns only the records from
the 12th row on (d12 to d15, the constructor having consumed rows 1-11),
while seeking back to record index 2 and reading the rest returns d7 to
d15 — the records the constructor discarded are re-emitted, so the
claimed split at k = 2 duplicates rows instead of reproducing the
uninterrupted run.  This is in the charitable seekable-stream model; on
the actual bunzip2 subprocess pipe, seekToRecord with a positive index
raises OSError before any replay, so a resumed run cannot replay the
stream at all. -/
theorem claim_C5_bug :
    fullRunRows c5badlines
      = [str "d12\x02\n", str "d13\x02\n", str "d14\x02\n", str "d15\x02\n"]
    ∧ resumedRows c5badlines 2
      = [str "d7\x02\n", str "d8\x02\n", str "d9\x02\n", str "d10\x02\n",
         str "d11\x02\n", str "d12\x02\n", str "d13\x02\n", str "d14\x02\n",
         str "d15\x02\n"]
    ∧ fullRunRows c5badlines
      ≠ (fullRunRows c5badlines).take 2 ++ resumedRows c5badlines 2 := by decide

/-! ## Numeric sanitization (claim C7) -/

/-- Claim C7: in the numeric pass of record decoding, a non-empty value
that does not start with a digit has every character other than digits,
dot and minus stripped (so "[42]" becomes "42"); if the stripped value is
empty the entire record is discarded (None) and nextRecord recurses so
the run continues with the next record. -/
theorem claim_C7 (v : PyStr) (hv : v ≠ []) (hd : (front v).isDigit = false) :
    sanitizeNumber (str "[42]") = str "42"
    ∧ (∀ (js : List Nat) (j : Nat) (rec : List Field), rec.getD j none = some v →
        (sanitizeNumber v = [] → numberPass (j :: js) rec = none)
        ∧ (sanitizeNumber v ≠ [] →
            numberPass (j :: js) rec = numberPass js (rec.set j (some (sanitizeNumber v)))))
    ∧ (∀ (cfg : ParserConfig) (todayYear fuel : Nat) (ln : PyStr) (ls : List PyStr),
        simpleRow ln = true → isCom ln = false → decodeRow cfg todayYear ln = none →
        nextRecordS cfg todayYear (fuel + 1) (ln :: ls)
          = nextRecordS cfg todayYear fuel ls) := by
  refine ⟨rfl, ?_, ?_⟩
  · intro js j rec hget
    constructor
    · intro hz
      rw [numberPass, hget]
      simp [hv, hd, hz]
    · intro hnz
      rw [numberPass, hget]
      simp [hv, hd, hnz]
  · intro cfg todayYear fuel ln ls hsr hcom hdec
    rw [nextRecordS, nextRow_true_data ln ls hsr hcom]
    show (match decodeRow cfg todayYear ln with
          | some rec => ((some rec : Option (List Field)), ls)
          | none => nextRecordS cfg todayYear fuel ls)
        = nextRecordS cfg todayYear fuel ls
    rw [hdec]

/-- Witness for claim C7 at concrete inputs: "[42]" is sanitized to "42"
in place, and a record whose numeric field strips to nothing is skipped
while decoding continues with the following record. -/
theorem claim_C7_witness :
    numberPass [0] [some (str "[42]")] = some [some (str "42")]
    ∧ nextRecordS c7cfg 2025 2 [str "<bad>\x02\n", str "42\x02\n"]
        = (some [some (str "42")], []) := by
  have h1 := (claim_C7 (str "[42]") (by decide) (by decide)).2.1 [] 0
    [some (str "[42]")] rfl
  have h2 := (claim_C7 (str "[42]") (by decide) (by decide)).2.2 c7cfg 2025 1
    (str "<bad>\x02\n") [str "42\x02\n"] (by decide) (by decide) (by decide)
  constructor
  · rw [h1.2 (by decide)]; decide
  · rw [h2]; decide

end EPF
